import Mathlib

/-!
Shallow embedding of the k-means clustering programs `hw1/kmeans.py` and
`hw2/kmeanspp.py` of this repository, together with proofs about them.

Modelling conventions:
* Python floats are modelled by `ℚ`; every numeric value appearing in the
  concrete scenarios below is exactly representable, and the program performs
  only field operations, `min`/`max`, comparisons and `sqrt`.  Wherever the
  source takes a square root (`math.sqrt`, `np.linalg.norm`) the value is only
  ever used inside a monotone context (a comparison against `EPS`, a `min`, or
  squaring it back), so the embedding tracks the squared quantity instead; each
  such place is commented.
* Python exceptions are modelled by `Option`/`Except` results.
-/

set_option allowUnsafeReducibility true in
attribute [semireducible] Rat.add Rat.mul Rat.sub Rat.inv Rat.div Rat.blt

/-- Decidable equality of `Except` results, used to settle concrete runs. -/
instance {ε α : Type} [DecidableEq ε] [DecidableEq α] : DecidableEq (Except ε α) := fun x y =>
  match x, y with
  | .error e, .error f =>
    if h : e = f then isTrue (by rw [h]) else isFalse (by simp [h])
  | .error _, .ok _ => isFalse (by simp)
  | .ok _, .error _ => isFalse (by simp)
  | .ok a, .ok b =>
    if h : a = b then isTrue (by rw [h]) else isFalse (by simp [h])

abbrev Point := List ℚ

/-- Squared Euclidean distance between two points, as computed by `euclid_sq`
in `hw1/kmeans.py`: `sum((pi - qi) ** 2 for pi, qi in zip(p, q))`. -/
def euclid_sq (p q : Point) : ℚ :=
  ((p.zip q).map (fun s => (s.1 - s.2) ^ 2)).sum

/-- Element-wise sum of two points (`add_pts` in `hw1/kmeans.py`). -/
def add_pts (p q : Point) : Point :=
  (p.zip q).map (fun s => s.1 + s.2)

/-- Division of a point by a scalar (`div_pt` in `hw1/kmeans.py`).  Python
raises `ZeroDivisionError` when `denom == 0.0`; that outcome is modelled by
`none`. -/
def div_pt (p : Point) (denom : ℚ) : Option Point :=
  if denom = 0 then none else some (p.map (fun x => x / denom))

/-- Error message `NUM_CLUST_ERR` of `hw1/kmeans.py`. -/
def NUM_CLUST_ERR : String := "Incorrect number of clusters!"

/-- Error message `GENERIC_ERR` of `hw1/kmeans.py` (also printed by `main`
for any uncaught non-`ValueError` exception, e.g. an `IndexError`). -/
def GENERIC_ERR : String := "An Error Has Occurred"

/-- Convergence threshold `EPS = 0.001` of `hw1/kmeans.py`. -/
def EPS : ℚ := 1 / 1000

/-- Squared distance from point `p` to the centroid of index `i`: the key
function `lambda i: euclid_sq(p, centroids[i])` of the assignment step of
`kmeans` (`hw1/kmeans.py`).  The index is always in range in every reachable
call, so the `getD` default is never consulted there. -/
def distToIdx (cs : List Point) (p : Point) (i : Nat) : ℚ :=
  euclid_sq p (cs.getD i [])

/-- Index of the nearest centroid, from the assignment step of `kmeans`:
`idx = min(range(k), key=lambda i: euclid_sq(p, centroids[i]))`.
Python's `min` returns the first element attaining the minimal key, which is
exactly this fold with a strict comparison, starting from index `0`.
(For `k = 0` Python raises; no claim below touches that case.) -/
def nearestIdx (cs : List Point) (p : Point) : Nat :=
  (List.range cs.length).foldl
    (fun best i => if distToIdx cs p i < distToIdx cs p best then i else best) 0

/-- One step of the cluster-building loop of `kmeans`:
`clusters[idx].append(p)` for a computed index. -/
def appendAt (i : Nat) (p : Point) (cls : List (List Point)) : List (List Point) :=
  cls.set i (cls.getD i [] ++ [p])

/-- Assignment step of `kmeans` (`hw1/kmeans.py`): start from `k` empty
buckets (`clusters = [[] for _ in range(k)]`) and append every data point to
the bucket of its nearest centroid, in data order. -/
def buildClusters (data cs : List Point) : List (List Point) :=
  data.foldl (fun acc p => appendAt (nearestIdx cs p) p acc)
    (List.replicate cs.length [])

/-- Component-wise sum of the points of a cluster, as accumulated by `kmeans`:
`acc = [0.0] * d` followed by `acc = add_pts(acc, p)` for each `p`. -/
def clusterSum (d : Nat) (cluster : List Point) : Point :=
  cluster.foldl add_pts (List.replicate d 0)

/-- New centroid for one cluster in the update step of `kmeans`: the mean of a
non-empty cluster, the unchanged previous centroid for an empty one. -/
def newCentroid (d : Nat) (old : Point) (cluster : List Point) : Option Point :=
  if cluster.isEmpty then some old
  else div_pt (clusterSum d cluster) (cluster.length : ℚ)

/-- Update step of `kmeans` (`hw1/kmeans.py`): walk `clusters` together with
the previous `centroids` (the Python loop reads `centroids[idx]`, with the two
lists always of equal length `k`; a length mismatch would be an `IndexError`,
modelled by `none`). -/
def updateCentroids (d : Nat) : List (List Point) → List Point → Option (List Point)
  | [], _ => some []
  | _ :: _, [] => none
  | cl :: cls, c :: rest =>
    match newCentroid d c cl with
    | none => none
    | some nc =>
      match updateCentroids d cls rest with
      | none => none
      | some ncs => some (nc :: ncs)

/-- Mean of a non-empty cluster (total version used to state what the guarded
division of `newCentroid` produces). -/
def meanPt (d : Nat) (cluster : List Point) : Point :=
  (clusterSum d cluster).map (fun x => x / (cluster.length : ℚ))

/-- Total description of the update step (equal to `updateCentroids`, which
never actually fails: the division is guarded by non-emptiness). -/
def updateTotal (d : Nat) : List (List Point) → List Point → List Point
  | [], _ => []
  | _ :: _, [] => []
  | cl :: cls, c :: rest =>
    (if cl.isEmpty then c else meanPt d cl) :: updateTotal d cls rest

/-- Squared centroid shifts of one iteration of `kmeans`.  The source computes
`deltas = [math.sqrt(euclid_sq(nc, oc)) for nc, oc in zip(new, old)]`; the
embedding keeps the squares, and every use compares against `EPS ^ 2`
instead of `EPS`, which is equivalent since `sqrt` is monotone and the
squared distances are non-negative. -/
def sqDeltas (newC oldC : List Point) : List ℚ :=
  (newC.zip oldC).map (fun s => euclid_sq s.1 s.2)

/-- Maximal squared centroid shift: `max(deltas)` of the source, squared.
The fold starts at `0`, which is correct because every squared delta is
non-negative (and the list is non-empty in every reachable call). -/
def maxDeltaSq (newC oldC : List Point) : ℚ :=
  (sqDeltas newC oldC).foldl max 0

/-- One full assignment-and-update pass of the Lloyd iterator of `kmeans`,
in its total form. -/
def lloydStepTotal (d : Nat) (data cs : List Point) : List Point :=
  updateTotal d (buildClusters data cs) cs

/-- Iteration loop of `kmeans` (`for _ in range(max_iter)`): perform the
assignment and update steps, stop early when `max(deltas) < EPS`
(embedded as `maxDeltaSq < EPS ^ 2`), otherwise continue with the new
centroids until the iteration budget is exhausted. -/
def lloydLoop (d : Nat) (data : List Point) : List Point → Nat → Option (List Point)
  | cs, 0 => some cs
  | cs, fuel + 1 =>
    match updateCentroids d (buildClusters data cs) cs with
    | none => none
    | some newC =>
      if maxDeltaSq newC cs < EPS ^ 2 then some newC
      else lloydLoop d data newC fuel

/-- Function `kmeans` of `hw1/kmeans.py`.  `n = len(data)`, `d = len(data[0])`
(an empty dataset raises `IndexError`, caught by `main` as the generic error);
`k >= n` raises `ValueError(NUM_CLUST_ERR)`; the initial centroids are copies
of the first `k` data points; then the loop runs. -/
def kmeans (data : List Point) (k maxIter : Nat) : Except String (List Point) :=
  match data with
  | [] => .error GENERIC_ERR
  | p0 :: _ =>
    if data.length ≤ k then .error NUM_CLUST_ERR
    else
      match lloydLoop p0.length data (data.take k) maxIter with
      | some cs => .ok cs
      | none => .error GENERIC_ERR

/-- Inertia of a centroid configuration: the sum over all points of the
squared distance to their assigned (nearest, lowest index on ties) centroid. -/
def inertia (data cs : List Point) : ℚ :=
  (data.map (fun p => distToIdx cs p (nearestIdx cs p))).sum

/-- Validation of the cluster-count argument in `parse_args` of
`hw1/kmeans.py`, for an argument string that parses as the rational `q`
(`k = float(sys.argv[1])`): a non-integral value or a value below 2 raises
`ValueError(NUM_CLUST_ERR)`, otherwise the integer `k` is returned.
(The `max_iter` argument is validated independently with its own message and
is not modelled here.) -/
def parse_k (q : ℚ) : Except String Int :=
  if q.den ≠ 1 then .error NUM_CLUST_ERR
  else if q.num < 2 then .error NUM_CLUST_ERR
  else .ok q.num

/-- Composition of the cluster-count validation of `parse_args` with `kmeans`,
as performed by `main` of `hw1/kmeans.py` (with a valid `max_iter`). -/
def hw1KmeansRun (q : ℚ) (data : List Point) (maxIter : Nat) :
    Except String (List Point) :=
  match parse_k q with
  | .error e => .error e
  | .ok k => kmeans data k.toNat maxIter

/-! ## Embedding of `hw2/kmeanspp.py` -/

/-- Failure outcomes of the initialization portion of `kmeans_pp`
(`hw2/kmeanspp.py`), modelling uncaught Python exceptions:
* `nanProb`: when all squared distances are zero, the normalization
  `D_squared / np.sum(D_squared)` is `0/0`; numpy silently yields NaN
  probabilities and the following `np.random.choice(N, p=probabilities)`
  raises a `ValueError` about NaN-containing probabilities (the source has no
  dedicated handling for this situation);
* `pyLookupFail`: in the hardcoded branch, `expected_indices[i]` out of range
  (`IndexError`) or `indices.index(original_idx)` missing (`ValueError`). -/
inductive PPErr where
  | nanProb : PPErr
  | pyLookupFail : PPErr
deriving DecidableEq

/-- Abstraction of the seeded numpy generator: `draw n probs` is the result of
the `n`-th `np.random.choice` call when the probability vector passed to that
call is `probs` (for `np.random.choice(N)` without `p`, the uniform vector).
The claims below are about which probability vectors the program passes to the
generator and how the drawn positions are used. -/
structure Sampler where
  draw : Nat → List ℚ → Nat

/-- Hardcoded table `expected_initial_indices` of `kmeans_pp`
(`hw2/kmeanspp.py`), keyed by the pair of input file names. -/
def expectedInitialIndices : List ((String × String) × List Int) :=
  [(("tests/input_1_db_1.txt", "tests/input_1_db_2.txt"), [47, 26, 39]),
   (("tests/input_2_db_1.txt", "tests/input_2_db_2.txt"),
     [47, 73, 117, 93, 116, 127, 20]),
   (("tests/input_3_db_1.txt", "tests/input_3_db_2.txt"),
     [47, 46, 73, 57, 69, 78, 14, 20, 70, 11, 8, 1, 41, 28, 67])]

/-- Lookup `current_files in expected_initial_indices` plus retrieval (the
dictionary keys are pairwise distinct, so `find?` models the `dict` access). -/
def lookupExpected (file1 file2 : String) : Option (List Int) :=
  (expectedInitialIndices.find? (fun e => e.1.1 == file1 && e.1.2 == file2)).map
    (fun e => e.2)

/-- Hardcoded branch of `kmeans_pp`: for each `i in range(k)`,
`original_idx = expected_indices[i]`,
`idx_in_datapoints = indices.index(original_idx)`, and the centroid is
`datapoints[idx_in_datapoints]`.  No random draw happens in this branch. -/
def hardcodedSelect (indices : List Int) (dps : List Point) (table : List Int)
    (k : Nat) : Except PPErr (List Int × List Point) :=
  match (List.range k).mapM (fun i =>
    match table.get? i with
    | none => Except.error PPErr.pyLookupFail
    | some orig =>
      match indices.findIdx? (fun x => x == orig) with
      | none => Except.error PPErr.pyLookupFail
      | some pos => Except.ok (orig, dps.getD pos [])) with
  | .error e => .error e
  | .ok pairs => .ok (pairs.map Prod.fst, pairs.map Prod.snd)

/-- Distance-array update of `kmeans_pp`:
`D[j] = min(D[j], np.linalg.norm(datapoints[j] - centroids[i]))`.
The source stores plain Euclidean distances and squares the whole array
(`D**2`) before normalizing; the embedding stores the squares throughout,
which is equivalent because `sqrt` is monotone (so `min` commutes with
squaring on non-negative values) and `D` is only ever used squared. -/
def ppUpdateD (dps : List Point) (Dsq : List ℚ) (c : Point) : List ℚ :=
  (dps.zip Dsq).map (fun x => min x.2 (euclid_sq x.1 c))

/-- Weighted-draw loop of `kmeans_pp` (`for i in range(1, k)`), carrying the
squared distance array `Dsq` and the accumulated seed indices and centroids.
Each step forms `probabilities = D_squared / np.sum(D_squared)` and passes
them to the sampler; a zero total models the `0/0 → NaN` crash (`nanProb`).
`i` counts the sampler calls, `r` the remaining draws.  (The source's inner
`if i < k` guard is always true and is omitted.) -/
def ppLoop (s : Sampler) (indices : List Int) (dps : List Point) :
    List ℚ → List Int → List Point → Nat → Nat →
      Except PPErr (List Int × List Point)
  | _, accIdx, accC, _, 0 => .ok (accIdx, accC)
  | Dsq, accIdx, accC, i, r + 1 =>
    if Dsq.sum = 0 then .error PPErr.nanProb
    else
      ppLoop s indices dps
        (ppUpdateD dps Dsq (dps.getD (s.draw i (Dsq.map (fun x => x / Dsq.sum))) []))
        (accIdx ++ [indices.getD (s.draw i (Dsq.map (fun x => x / Dsq.sum))) 0])
        (accC ++ [dps.getD (s.draw i (Dsq.map (fun x => x / Dsq.sum))) []])
        (i + 1) r

/-- Initialization portion of `kmeans_pp` (`hw2/kmeanspp.py`), after the
`k >= N` validation and up to (not including) the call into the `mykmeanssp`
C extension.  `indices` are the original pre-join key labels in merged/sorted
order, `dps` the datapoints.  When the file-name pair is one of the three
hardcoded test pairs, the seeds come from the lookup table and the sampler is
never consulted; otherwise the first seed position is drawn with the uniform
vector over `N` positions and each later seed with the normalized
squared-distance vector. -/
def kmeans_pp (file1 file2 : String) (indices : List Int) (dps : List Point)
    (k : Nat) (s : Sampler) : Except PPErr (List Int × List Point) :=
  match lookupExpected file1 file2 with
  | some table => hardcodedSelect indices dps table k
  | none =>
    ppLoop s indices dps
      (dps.map (fun p =>
        euclid_sq p (dps.getD (s.draw 0 (List.replicate dps.length (1 / (dps.length : ℚ)))) [])))
      [indices.getD (s.draw 0 (List.replicate dps.length (1 / (dps.length : ℚ)))) 0]
      [dps.getD (s.draw 0 (List.replicate dps.length (1 / (dps.length : ℚ)))) []]
      1 (k - 1)

/-- Minimum squared distance from `p` to a non-empty list of already-chosen
centroids: the specification's description of the array `D` (squared).  For an
empty list (never reached by the program) the value is 0. -/
def minDistSqTo (cents : List Point) (p : Point) : ℚ :=
  match cents with
  | [] => 0
  | c :: rest => rest.foldl (fun a c' => min a (euclid_sq p c')) (euclid_sq p c)

/-- Specification-side weighted-draw loop, written from the spec's words: at
each subsequent draw the selection probabilities are proportional to the
squared minimum distance from each point to the already-chosen centroids,
normalized over all `N` points.  Reference against which the incremental `D`
update of `ppLoop` is verified. -/
def specLoop (s : Sampler) (indices : List Int) (dps : List Point) :
    List Int → List Point → Nat → Nat → Except PPErr (List Int × List Point)
  | accIdx, accC, _, 0 => .ok (accIdx, accC)
  | accIdx, accC, i, r + 1 =>
    if (dps.map (minDistSqTo accC)).sum = 0 then .error PPErr.nanProb
    else
      specLoop s indices dps
        (accIdx ++ [indices.getD (s.draw i ((dps.map (minDistSqTo accC)).map
          (fun x => x / (dps.map (minDistSqTo accC)).sum))) 0])
        (accC ++ [dps.getD (s.draw i ((dps.map (minDistSqTo accC)).map
          (fun x => x / (dps.map (minDistSqTo accC)).sum))) []])
        (i + 1) r

/-- Specification-side initializer: uniform first draw, then `specLoop`. -/
def kmeansppSpecInit (indices : List Int) (dps : List Point) (k : Nat)
    (s : Sampler) : Except PPErr (List Int × List Point) :=
  specLoop s indices dps
    [indices.getD (s.draw 0 (List.replicate dps.length (1 / (dps.length : ℚ)))) 0]
    [dps.getD (s.draw 0 (List.replicate dps.length (1 / (dps.length : ℚ)))) []]
    1 (k - 1)

/-! ### Validation of the cluster count in the two variants -/

/-- Truncation toward zero performed by Python's `int(...)` on a float value:
this is what `int(float(k_str))` computes in `validate_input` of
`hw2/kmeanspp.py`. -/
def pythonTrunc (q : ℚ) : Int := if 0 ≤ q then ⌊q⌋ else -⌊-q⌋

/-- Message printed by `validate_input` and by the `k >= N` check of
`kmeans_pp` for a bad cluster count. -/
def INVALID_K_MSG : String := "Invalid number of clusters!"

/-- Cluster-count handling of `validate_input` (`hw2/kmeanspp.py`):
`k = int(float(k_str))` followed by `if not (k > 1)`.  Note the truncation:
a fractional argument is not rejected but rounded toward zero. -/
def validate_k (q : ℚ) : Except String Int :=
  if 1 < pythonTrunc q then .ok (pythonTrunc q) else .error INVALID_K_MSG

/-- Composition of the cluster-count handling of `validate_input` with the
`if k >= N` check at the start of `kmeans_pp`: the two places where the
k-means++ variant validates the cluster count, both before any iteration. -/
def kmeansppKCheck (q : ℚ) (n : Nat) : Except String Int :=
  match validate_k q with
  | .error e => .error e
  | .ok k => if (n : Int) ≤ k then .error INVALID_K_MSG else .ok k

/-- Generic form of the fold inside `nearestIdx`. -/
def argminFold (f : Nat → ℚ) (k : Nat) : Nat :=
  (List.range k).foldl (fun best i => if f i < f best then i else best) 0

/-- Concrete sampler for the C2 scenarios: every call returns position 3. -/
def c2Sampler : Sampler := ⟨fun _ _ => 3⟩

/-- Concrete sampler for the C2 amended-claim witness: every call returns 1. -/
def c2WitnessSampler : Sampler := ⟨fun _ _ => 1⟩

/-- Concrete sampler for the C3 scenario: every call returns position 0. -/
def c3Sampler : Sampler := ⟨fun _ _ => 0⟩

/-! ### Properties of the assignment step -/

lemma nearestIdx_eq_argminFold (cs : List Point) (p : Point) :
    nearestIdx cs p = argminFold (distToIdx cs p) cs.length := rfl

lemma argminFold_succ (f : Nat → ℚ) (k : Nat) :
    argminFold f (k + 1) =
      if f k < f (argminFold f k) then k else argminFold f k := by
  unfold argminFold
  rw [List.range_succ, List.foldl_append]
  rfl

lemma argminFold_spec (f : Nat → ℚ) :
    ∀ k, 0 < k →
      argminFold f k < k ∧
      (∀ j, j < k → f (argminFold f k) ≤ f j) ∧
      (∀ j, j < argminFold f k → f (argminFold f k) < f j) := by
  intro k
  induction k with
  | zero => intro h; exact absurd h (by simp)
  | succ k ih =>
    intro _
    by_cases hk : 0 < k
    · obtain ⟨h1, h2, h3⟩ := ih hk
      rw [argminFold_succ]
      by_cases hc : f k < f (argminFold f k)
      · rw [if_pos hc]
        refine ⟨Nat.lt_succ_self k, ?_, ?_⟩
        · intro j hj
          rcases Nat.lt_succ_iff_lt_or_eq.mp hj with h | h
          · exact le_of_lt (lt_of_lt_of_le hc (h2 j h))
          · exact le_of_eq (congrArg f h.symm)
        · intro j hj
          exact lt_of_lt_of_le hc (h2 j hj)
      · rw [if_neg hc]
        refine ⟨Nat.lt_succ_of_lt h1, ?_, h3⟩
        intro j hj
        rcases Nat.lt_succ_iff_lt_or_eq.mp hj with h | h
        · exact h2 j h
        · rw [h]; exact not_lt.mp hc
    · have hk0 : k = 0 := Nat.eq_zero_of_not_pos hk
      subst hk0
      rw [argminFold_succ]
      have h0 : argminFold f 0 = 0 := rfl
      rw [h0, if_neg (lt_irrefl _)]
      exact ⟨Nat.zero_lt_one, fun j hj => by interval_cases j; exact le_refl _,
        fun j hj => absurd hj (Nat.not_lt_zero j)⟩

lemma nearestIdx_lt (cs : List Point) (p : Point) (h : cs ≠ []) :
    nearestIdx cs p < cs.length := by
  rw [nearestIdx_eq_argminFold]
  exact (argminFold_spec _ _ (List.length_pos.mpr h)).1

lemma nearestIdx_min (cs : List Point) (p : Point) (h : cs ≠ []) :
    ∀ j, j < cs.length → distToIdx cs p (nearestIdx cs p) ≤ distToIdx cs p j := by
  rw [nearestIdx_eq_argminFold]
  exact (argminFold_spec _ _ (List.length_pos.mpr h)).2.1

lemma nearestIdx_least (cs : List Point) (p : Point) (h : cs ≠ []) :
    ∀ j, j < nearestIdx cs p → distToIdx cs p (nearestIdx cs p) < distToIdx cs p j := by
  rw [nearestIdx_eq_argminFold]
  exact (argminFold_spec _ _ (List.length_pos.mpr h)).2.2

/-! ### Properties of the update step -/

lemma newCentroid_eq (d : Nat) (old : Point) (cluster : List Point) :
    newCentroid d old cluster =
      some (if cluster.isEmpty then old else meanPt d cluster) := by
  unfold newCentroid
  by_cases h : cluster.isEmpty
  · rw [if_pos h, if_pos h]
  · rw [if_neg h, if_neg h]
    unfold div_pt
    rw [if_neg ?_]
    · rfl
    · have hne : cluster ≠ [] := fun hc => h (by rw [hc]; rfl)
      have : cluster.length ≠ 0 := fun hc => hne (List.length_eq_zero.mp hc)
      exact_mod_cast this

/-- The guarded division of the update step never fails: `updateCentroids`
computes `updateTotal` whenever the two lists have equal length (which the
program maintains). -/
lemma updateCentroids_eq_updateTotal (d : Nat) :
    ∀ (cls : List (List Point)) (old : List Point), cls.length = old.length →
      updateCentroids d cls old = some (updateTotal d cls old) := by
  intro cls
  induction cls with
  | nil =>
    intro old h
    rfl
  | cons cl cls ih =>
    intro old h
    match old with
    | [] => simp at h
    | c :: rest =>
      have hlen : cls.length = rest.length := by simpa using h
      rw [updateCentroids, newCentroid_eq, ih rest hlen]
      rfl

lemma updateTotal_length (d : Nat) :
    ∀ (cls : List (List Point)) (old : List Point),
      (updateTotal d cls old).length = min cls.length old.length := by
  intro cls
  induction cls with
  | nil => intro old; simp [updateTotal]
  | cons cl cls ih =>
    intro old
    match old with
    | [] => simp [updateTotal]
    | c :: rest =>
      rw [updateTotal]
      simp [ih rest, Nat.succ_min_succ]

lemma updateTotal_getD (d : Nat) :
    ∀ (cls : List (List Point)) (old : List Point) (i : Nat),
      i < cls.length → i < old.length →
      (updateTotal d cls old).getD i [] =
        if (cls.getD i []).isEmpty then old.getD i [] else meanPt d (cls.getD i []) := by
  intro cls
  induction cls with
  | nil => intro old i hi _; simp at hi
  | cons cl cls ih =>
    intro old i hi hio
    match old with
    | [] => simp at hio
    | c :: rest =>
      match i with
      | 0 => rfl
      | i + 1 =>
        rw [updateTotal]
        have h1 : i < cls.length := Nat.lt_of_succ_lt_succ hi
        have h2 : i < rest.length := Nat.lt_of_succ_lt_succ hio
        simpa using ih rest i h1 h2

/-! ### Characterization of the assignment buckets -/

lemma appendAt_length (i : Nat) (p : Point) (cls : List (List Point)) :
    (appendAt i p cls).length = cls.length := List.length_set ..

lemma appendAt_getD_self (i : Nat) (p : Point) (cls : List (List Point))
    (h : i < cls.length) :
    (appendAt i p cls).getD i [] = cls.getD i [] ++ [p] := by
  unfold appendAt
  rw [List.getD_eq_getElem?_getD, List.getElem?_set_self (by simpa using h)]
  rfl

lemma appendAt_getD_ne (i j : Nat) (p : Point) (cls : List (List Point))
    (h : i ≠ j) :
    (appendAt i p cls).getD j [] = cls.getD j [] := by
  unfold appendAt
  rw [List.getD_eq_getElem?_getD, List.getElem?_set_ne h, ← List.getD_eq_getElem?_getD]

lemma buildClusters_length (data cs : List Point) :
    (buildClusters data cs).length = cs.length := by
  unfold buildClusters
  have : ∀ (l : List Point) (acc : List (List Point)),
      (l.foldl (fun a p => appendAt (nearestIdx cs p) p a) acc).length = acc.length := by
    intro l
    induction l with
    | nil => intro acc; rfl
    | cons p l ih => intro acc; rw [List.foldl_cons, ih, appendAt_length]
  rw [this, List.length_replicate]

lemma buildClusters_getD (data cs : List Point) (i : Nat)
    (hi : i < cs.length) :
    (buildClusters data cs).getD i [] =
      data.filter (fun p => nearestIdx cs p == i) := by
  unfold buildClusters
  have key : ∀ (l : List Point) (acc : List (List Point)), acc.length = cs.length →
      (l.foldl (fun a p => appendAt (nearestIdx cs p) p a) acc).getD i [] =
        acc.getD i [] ++ l.filter (fun p => nearestIdx cs p == i) := by
    intro l
    induction l with
    | nil => intro acc _; simp
    | cons p l ih =>
      intro acc hacc
      rw [List.foldl_cons, ih _ (by rw [appendAt_length]; exact hacc)]
      by_cases hp : nearestIdx cs p = i
      · rw [hp, appendAt_getD_self _ _ _ (by rw [hacc]; exact hi)]
        have : (p :: l).filter (fun q => nearestIdx cs q == i) =
            p :: l.filter (fun q => nearestIdx cs q == i) := by
          rw [List.filter_cons_of_pos (by simpa using hp)]
        rw [this, List.append_assoc]
        rfl
      · rw [appendAt_getD_ne _ _ _ _ hp]
        have : (p :: l).filter (fun q => nearestIdx cs q == i) =
            l.filter (fun q => nearestIdx cs q == i) := by
          rw [List.filter_cons_of_neg (by simpa using hp)]
        rw [this]
  rw [key data _ (List.length_replicate _ _)]
  have : (List.replicate cs.length ([] : List Point)).getD i [] = [] := by
    rw [List.getD_eq_getElem?_getD, List.getElem?_replicate]
    simp [hi]
  rw [this, List.nil_append]

lemma mem_buildClusters (data cs : List Point) (cl : List Point)
    (hcl : cl ∈ buildClusters data cs) : ∀ p ∈ cl, p ∈ data := by
  obtain ⟨i, hi, heq⟩ := List.mem_iff_getElem.mp hcl
  have hlen : i < cs.length := by rw [← buildClusters_length data cs]; exact hi
  have hg : (buildClusters data cs)[i] = (buildClusters data cs).getD i [] := by
    rw [List.getD_eq_getElem?_getD, List.getElem?_eq_getElem hi]
    rfl
  rw [← heq, hg, buildClusters_getD data cs i hlen]
  intro p hp
  exact List.mem_of_mem_filter hp

/-! ### Shape preservation and totality of the loop -/

lemma add_pts_length (p q : Point) : (add_pts p q).length = min p.length q.length := by
  unfold add_pts
  rw [List.length_map, List.length_zip]

lemma clusterSum_length (d : Nat) (cluster : List Point)
    (h : ∀ p ∈ cluster, p.length = d) : (clusterSum d cluster).length = d := by
  unfold clusterSum
  have key : ∀ (l : List Point) (acc : Point), (∀ p ∈ l, p.length = d) →
      acc.length = d → (l.foldl add_pts acc).length = d := by
    intro l
    induction l with
    | nil => intro acc _ hacc; exact hacc
    | cons p l ih =>
      intro acc hl hacc
      rw [List.foldl_cons]
      refine ih _ (fun q hq => hl q (List.mem_cons_of_mem _ hq)) ?_
      rw [add_pts_length, hacc, hl p (List.mem_cons_self _ _)]
      exact Nat.min_self d
  exact key cluster _ h (List.length_replicate _ _)

lemma meanPt_length (d : Nat) (cluster : List Point)
    (h : ∀ p ∈ cluster, p.length = d) : (meanPt d cluster).length = d := by
  unfold meanPt
  rw [List.length_map, clusterSum_length d cluster h]

lemma updateTotal_dims (d : Nat) :
    ∀ (cls : List (List Point)) (old : List Point),
      (∀ cl ∈ cls, ∀ p ∈ cl, p.length = d) → (∀ c ∈ old, c.length = d) →
      ∀ c ∈ updateTotal d cls old, c.length = d := by
  intro cls
  induction cls with
  | nil => intro old _ _ c hc; simp [updateTotal] at hc
  | cons cl cls ih =>
    intro old hcls hold c hc
    match old with
    | [] => simp [updateTotal] at hc
    | c0 :: rest =>
      rw [updateTotal] at hc
      rcases List.mem_cons.mp hc with h | h
      · subst h
        by_cases he : cl.isEmpty
        · rw [if_pos he]; exact hold c0 (List.mem_cons_self _ _)
        · rw [if_neg he]
          exact meanPt_length d cl (hcls cl (List.mem_cons_self _ _))
      · exact ih rest (fun l hl => hcls l (List.mem_cons_of_mem _ hl))
          (fun x hx => hold x (List.mem_cons_of_mem _ hx)) c h

lemma lloydStepTotal_length (d : Nat) (data cs : List Point) :
    (lloydStepTotal d data cs).length = cs.length := by
  unfold lloydStepTotal
  rw [updateTotal_length, buildClusters_length, Nat.min_self]

lemma lloydStepTotal_dims (d : Nat) (data cs : List Point)
    (hd : ∀ p ∈ data, p.length = d) (hcs : ∀ c ∈ cs, c.length = d) :
    ∀ c ∈ lloydStepTotal d data cs, c.length = d := by
  unfold lloydStepTotal
  exact updateTotal_dims d _ cs
    (fun cl hcl p hp => hd p (mem_buildClusters data cs cl hcl p hp)) hcs

/-- The loop of `kmeans` never fails and preserves the number and the
dimension of the centroids. -/
lemma lloydLoop_ok (d : Nat) (data : List Point) (hd : ∀ p ∈ data, p.length = d) :
    ∀ (fuel : Nat) (cs : List Point), (∀ c ∈ cs, c.length = d) →
      ∃ res, lloydLoop d data cs fuel = some res ∧ res.length = cs.length ∧
        ∀ c ∈ res, c.length = d := by
  intro fuel
  induction fuel with
  | zero => intro cs hcs; exact ⟨cs, rfl, rfl, hcs⟩
  | succ fuel ih =>
    intro cs hcs
    have hupd : updateCentroids d (buildClusters data cs) cs =
        some (lloydStepTotal d data cs) :=
      updateCentroids_eq_updateTotal d _ cs (buildClusters_length data cs)
    rw [lloydLoop, hupd]
    by_cases hconv : maxDeltaSq (lloydStepTotal d data cs) cs < EPS ^ 2
    · refine ⟨lloydStepTotal d data cs, ?_, lloydStepTotal_length d data cs,
        lloydStepTotal_dims d data cs hd hcs⟩
      simp [hconv]
    · obtain ⟨res, hres, hlen, hdims⟩ :=
        ih (lloydStepTotal d data cs) (lloydStepTotal_dims d data cs hd hcs)
      refine ⟨res, ?_, ?_, hdims⟩
      · simp [hconv, hres]
      · rw [hlen, lloydStepTotal_length]

/-- Outcome of `kmeans` on any valid input: success, with `k` centroids of
dimension `d` each. -/
lemma kmeans_ok (data : List Point) (k maxIter d : Nat)
    (hd : ∀ p ∈ data, p.length = d) (hk : k < data.length) :
    ∃ cs, kmeans data k maxIter = .ok cs ∧ cs.length = k ∧
      ∀ c ∈ cs, c.length = d := by
  match data with
  | [] => simp at hk
  | p0 :: rest =>
    have hd0 : p0.length = d := hd p0 (List.mem_cons_self _ _)
    have htake : ∀ c ∈ (p0 :: rest).take k, c.length = d :=
      fun c hc => hd c (List.mem_of_mem_take hc)
    obtain ⟨res, hres, hlen, hdims⟩ :=
      lloydLoop_ok d (p0 :: rest) hd maxIter ((p0 :: rest).take k) htake
    refine ⟨res, ?_, ?_, hdims⟩
    · rw [kmeans, if_neg (not_le.mpr hk), hd0, hres]
    · rw [hlen, List.length_take]
      exact Nat.min_eq_left (Nat.le_of_lt hk)

/-! ### Inertia: partition of the total cost over the assignment buckets -/

lemma sum_map_partition (key : Point → Nat) (g : Point → ℚ) (k : Nat) :
    ∀ (data : List Point), (∀ p ∈ data, key p < k) →
      (data.map g).sum =
        ∑ i ∈ Finset.range k, ((data.filter (fun p => key p == i)).map g).sum := by
  intro data
  induction data with
  | nil => simp
  | cons p l ih =>
    intro hkey
    have hp : key p < k := hkey p (List.mem_cons_self _ _)
    have hl : ∀ q ∈ l, key q < k := fun q hq => hkey q (List.mem_cons_of_mem _ hq)
    rw [List.map_cons, List.sum_cons, ih hl]
    have hsplit : ∀ i, (((p :: l).filter (fun q => key q == i)).map g).sum =
        (if i = key p then g p else 0) +
          ((l.filter (fun q => key q == i)).map g).sum := by
      intro i
      by_cases h : key p = i
      · rw [List.filter_cons_of_pos (by simpa using h), List.map_cons, List.sum_cons,
          if_pos h.symm]
      · rw [List.filter_cons_of_neg (by simpa using h), if_neg (fun hh => h hh.symm),
          zero_add]
    rw [Finset.sum_congr rfl (fun i _ => hsplit i), Finset.sum_add_distrib,
      Finset.sum_ite_eq' (Finset.range k) (key p) (fun _ => g p),
      if_pos (Finset.mem_range.mpr hp)]

lemma inertia_eq_partition (data cs : List Point) (hcs : cs ≠ []) :
    inertia data cs = ∑ i ∈ Finset.range cs.length,
      ((data.filter (fun p => nearestIdx cs p == i)).map
        (fun p => distToIdx cs p i)).sum := by
  unfold inertia
  rw [sum_map_partition (nearestIdx cs) _ cs.length data
    (fun p _ => nearestIdx_lt cs p hcs)]
  refine Finset.sum_congr rfl (fun i _ => ?_)
  refine congrArg List.sum (List.map_congr_left (fun p hp => ?_))
  have : nearestIdx cs p = i := by simpa using (List.mem_filter.mp hp).2
  rw [this]

/-! ### The mean minimizes the within-cluster sum of squared distances -/

lemma euclid_sq_eq_sum_range (d : Nat) :
    ∀ (p q : Point), p.length = d → q.length = d →
      euclid_sq p q = ∑ t ∈ Finset.range d, (p.getD t 0 - q.getD t 0) ^ 2 := by
  induction d with
  | zero =>
    intro p q hp hq
    rw [List.length_eq_zero.mp hp, List.length_eq_zero.mp hq]
    simp [euclid_sq]
  | succ d ih =>
    intro p q hp hq
    match p, q with
    | a :: p, b :: q =>
      have hp' : p.length = d := by simpa using hp
      have hq' : q.length = d := by simpa using hq
      have hhead : euclid_sq (a :: p) (b :: q) = (a - b) ^ 2 + euclid_sq p q := by
        simp [euclid_sq]
      rw [hhead, ih p q hp' hq', Finset.sum_range_succ' (fun t => _ ^ 2) d]
      have : ∀ t, ((a :: p).getD (t + 1) 0 - (b :: q).getD (t + 1) 0) ^ 2 =
          (p.getD t 0 - q.getD t 0) ^ 2 := fun t => rfl
      rw [Finset.sum_congr rfl (fun t _ => this t)]
      have h0 : ((a :: p).getD 0 0 - (b :: q).getD 0 0) ^ 2 = (a - b) ^ 2 := rfl
      rw [h0, add_comm]

lemma add_pts_getD :
    ∀ (p q : Point) (t : Nat), t < p.length → t < q.length →
      (add_pts p q).getD t 0 = p.getD t 0 + q.getD t 0 := by
  intro p
  induction p with
  | nil => intro q t ht _; simp at ht
  | cons a p ih =>
    intro q t ht ht'
    match q, t with
    | b :: q, 0 => rfl
    | b :: q, t + 1 =>
      have h1 : t < p.length := Nat.lt_of_succ_lt_succ ht
      have h2 : t < q.length := Nat.lt_of_succ_lt_succ ht'
      simpa [add_pts] using ih q t h1 h2

lemma clusterSum_getD (d : Nat) (S : List Point) (hdim : ∀ p ∈ S, p.length = d)
    (t : Nat) (ht : t < d) :
    (clusterSum d S).getD t 0 = (S.map (fun p => p.getD t 0)).sum := by
  unfold clusterSum
  have key : ∀ (l : List Point) (acc : Point), (∀ p ∈ l, p.length = d) →
      acc.length = d →
      (l.foldl add_pts acc).getD t 0 = acc.getD t 0 + (l.map (fun p => p.getD t 0)).sum := by
    intro l
    induction l with
    | nil => intro acc _ _; simp
    | cons p l ih =>
      intro acc hl hacc
      have hp : p.length = d := hl p (List.mem_cons_self _ _)
      have hlen : (add_pts acc p).length = d := by
        rw [add_pts_length, hacc, hp]; exact Nat.min_self d
      rw [List.foldl_cons, ih (add_pts acc p)
        (fun q hq => hl q (List.mem_cons_of_mem _ hq)) hlen,
        add_pts_getD acc p t (by rw [hacc]; exact ht) (by rw [hp]; exact ht)]
      rw [List.map_cons, List.sum_cons]
      ring
  rw [key S _ hdim (List.length_replicate _ _)]
  have : (List.replicate d (0 : ℚ)).getD t 0 = 0 := by
    rw [List.getD_eq_getElem?_getD, List.getElem?_replicate]
    simp [ht]
  rw [this, zero_add]

lemma meanPt_getD (d : Nat) (S : List Point) (t : Nat) :
    (meanPt d S).getD t 0 = (clusterSum d S).getD t 0 / (S.length : ℚ) := by
  unfold meanPt
  have h := @List.getD_map ℚ ℚ (clusterSum d S) 0 t (fun x => x / (S.length : ℚ))
  simpa using h

lemma sum_sq_sub (xs : List ℚ) (c : ℚ) :
    (xs.map (fun x => (x - c) ^ 2)).sum =
      (xs.map (fun x => x ^ 2)).sum - 2 * c * xs.sum + (xs.length : ℚ) * c ^ 2 := by
  induction xs with
  | nil => simp
  | cons x xs ih =>
    rw [List.map_cons, List.sum_cons, List.map_cons, List.sum_cons, List.sum_cons, ih,
      List.length_cons]
    push_cast
    ring

lemma mean_min_scalar (xs : List ℚ) (c m : ℚ) (hm : m * (xs.length : ℚ) = xs.sum) :
    (xs.map (fun x => (x - m) ^ 2)).sum ≤ (xs.map (fun x => (x - c) ^ 2)).sum := by
  rw [sum_sq_sub xs c, sum_sq_sub xs m, ← hm]
  have hlen : (0 : ℚ) ≤ (xs.length : ℚ) := Nat.cast_nonneg _
  nlinarith [sq_nonneg (m - c), mul_nonneg hlen (sq_nonneg (m - c))]

lemma list_sum_finset_sum_comm (S : List Point) (d : Nat) (g : Point → Nat → ℚ) :
    (S.map (fun p => ∑ t ∈ Finset.range d, g p t)).sum =
      ∑ t ∈ Finset.range d, (S.map (fun p => g p t)).sum := by
  induction S with
  | nil => simp
  | cons p S ih =>
    simp only [List.map_cons, List.sum_cons, ih, Finset.sum_add_distrib]

/-- The arithmetic mean of a non-empty cluster minimizes the sum of squared
Euclidean distances from the cluster's points, among all candidate centers. -/
lemma mean_minimizes (d : Nat) (S : List Point) (hS : S ≠ [])
    (hdim : ∀ p ∈ S, p.length = d) (c : Point) (hc : c.length = d) :
    (S.map (fun p => euclid_sq p (meanPt d S))).sum ≤
      (S.map (fun p => euclid_sq p c)).sum := by
  have hmean : (meanPt d S).length = d := meanPt_length d S hdim
  have hrw : ∀ (z : Point), z.length = d →
      S.map (fun p => euclid_sq p z) =
        S.map (fun p => ∑ t ∈ Finset.range d, (p.getD t 0 - z.getD t 0) ^ 2) :=
    fun z hz => List.map_congr_left (fun p hp =>
      euclid_sq_eq_sum_range d p z (hdim p hp) hz)
  rw [hrw _ hmean, hrw _ hc, list_sum_finset_sum_comm, list_sum_finset_sum_comm]
  refine Finset.sum_le_sum (fun t htmem => ?_)
  have ht : t < d := Finset.mem_range.mp htmem
  have hcomp : ∀ (a : ℚ), S.map (fun p => (p.getD t 0 - a) ^ 2) =
      (S.map (fun p => p.getD t 0)).map (fun x => (x - a) ^ 2) := by
    intro a
    rw [List.map_map]
    rfl
  rw [hcomp, hcomp]
  have hlen0 : (S.length : ℚ) ≠ 0 := by
    have : S.length ≠ 0 := fun h => hS (List.length_eq_zero.mp h)
    exact_mod_cast this
  refine mean_min_scalar _ _ _ ?_
  rw [meanPt_getD, clusterSum_getD d S hdim t ht, List.length_map,
    div_mul_cancel₀ _ hlen0]

lemma lloydStepTotal_getD (d : Nat) (data cs : List Point) (i : Nat)
    (hi : i < cs.length) :
    (lloydStepTotal d data cs).getD i [] =
      if ((buildClusters data cs).getD i []).isEmpty then cs.getD i []
      else meanPt d ((buildClusters data cs).getD i []) := by
  unfold lloydStepTotal
  exact updateTotal_getD d _ cs i (by rw [buildClusters_length]; exact hi) hi

lemma getD_mem_of_lt {cs : List Point} {i : Nat} (hi : i < cs.length) :
    cs.getD i [] ∈ cs := by
  rw [List.getD_eq_getElem?_getD, List.getElem?_eq_getElem hi]
  exact List.getElem_mem hi

/-- Core inertia bound: one full assignment-and-update pass (with no empty
bucket) does not increase the inertia. -/
lemma inertia_step_le (d : Nat) (data cs : List Point) (hcs : cs ≠ [])
    (hd : ∀ p ∈ data, p.length = d) (hdim : ∀ c ∈ cs, c.length = d)
    (hne : ∀ i, i < cs.length → (buildClusters data cs).getD i [] ≠ []) :
    inertia data (lloydStepTotal d data cs) ≤ inertia data cs := by
  have hlen' : (lloydStepTotal d data cs).length = cs.length :=
    lloydStepTotal_length d data cs
  have hcs'ne : lloydStepTotal d data cs ≠ [] := by
    intro h
    apply hcs
    apply List.length_eq_zero.mp
    rw [← hlen', h]
    rfl
  have stepA : inertia data (lloydStepTotal d data cs) ≤
      (data.map (fun p => distToIdx (lloydStepTotal d data cs) p (nearestIdx cs p))).sum := by
    unfold inertia
    refine List.sum_le_sum (fun p _ => ?_)
    exact nearestIdx_min (lloydStepTotal d data cs) p hcs'ne (nearestIdx cs p)
      (by rw [hlen']; exact nearestIdx_lt cs p hcs)
  have stepB : (data.map
        (fun p => distToIdx (lloydStepTotal d data cs) p (nearestIdx cs p))).sum =
      ∑ i ∈ Finset.range cs.length,
        ((data.filter (fun p => nearestIdx cs p == i)).map
          (fun p => distToIdx (lloydStepTotal d data cs) p i)).sum := by
    rw [sum_map_partition (nearestIdx cs) _ cs.length data
      (fun p _ => nearestIdx_lt cs p hcs)]
    refine Finset.sum_congr rfl (fun i _ => ?_)
    refine congrArg List.sum (List.map_congr_left (fun p hp => ?_))
    have hkey : nearestIdx cs p = i := by simpa using (List.mem_filter.mp hp).2
    rw [hkey]
  have stepC : ∀ i ∈ Finset.range cs.length,
      ((data.filter (fun p => nearestIdx cs p == i)).map
        (fun p => distToIdx (lloydStepTotal d data cs) p i)).sum ≤
      ((data.filter (fun p => nearestIdx cs p == i)).map
        (fun p => distToIdx cs p i)).sum := by
    intro i himem
    have hi : i < cs.length := Finset.mem_range.mp himem
    have hbucket : (buildClusters data cs).getD i [] =
        data.filter (fun p => nearestIdx cs p == i) := buildClusters_getD data cs i hi
    have hbne : data.filter (fun p => nearestIdx cs p == i) ≠ [] := by
      rw [← hbucket]
      exact hne i hi
    have hmean : (lloydStepTotal d data cs).getD i [] =
        meanPt d (data.filter (fun p => nearestIdx cs p == i)) := by
      rw [lloydStepTotal_getD d data cs i hi, hbucket, if_neg (by simpa using hbne)]
    have hdimB : ∀ p ∈ data.filter (fun p => nearestIdx cs p == i), p.length = d :=
      fun p hp => hd p (List.mem_of_mem_filter hp)
    have hcdim : (cs.getD i []).length = d := hdim _ (getD_mem_of_lt hi)
    simp only [distToIdx]
    rw [hmean]
    exact mean_minimizes d _ hbne hdimB (cs.getD i []) hcdim
  calc inertia data (lloydStepTotal d data cs)
      ≤ (data.map
          (fun p => distToIdx (lloydStepTotal d data cs) p (nearestIdx cs p))).sum := stepA
    _ = ∑ i ∈ Finset.range cs.length,
          ((data.filter (fun p => nearestIdx cs p == i)).map
            (fun p => distToIdx (lloydStepTotal d data cs) p i)).sum := stepB
    _ ≤ ∑ i ∈ Finset.range cs.length,
          ((data.filter (fun p => nearestIdx cs p == i)).map
            (fun p => distToIdx cs p i)).sum := Finset.sum_le_sum stepC
    _ = inertia data cs := (inertia_eq_partition data cs hcs).symm

/-! ### Fixed-point behaviour of a converged state -/

lemma buildClusters_congr (data cs cs' : List Point)
    (hlen : cs'.length = cs.length)
    (hsame : ∀ p ∈ data, nearestIdx cs' p = nearestIdx cs p) :
    buildClusters data cs' = buildClusters data cs := by
  unfold buildClusters
  rw [hlen]
  have key : ∀ (l : List Point) (acc : List (List Point)),
      (∀ p ∈ l, nearestIdx cs' p = nearestIdx cs p) →
      l.foldl (fun a p => appendAt (nearestIdx cs' p) p a) acc =
        l.foldl (fun a p => appendAt (nearestIdx cs p) p a) acc := by
    intro l
    induction l with
    | nil => intro acc _; rfl
    | cons p l ih =>
      intro acc h
      rw [List.foldl_cons, List.foldl_cons, h p (List.mem_cons_self _ _),
        ih _ (fun q hq => h q (List.mem_cons_of_mem _ hq))]
  exact key data _ hsame

lemma updateTotal_idem (d : Nat) :
    ∀ (cls : List (List Point)) (old : List Point),
      updateTotal d cls (updateTotal d cls old) = updateTotal d cls old := by
  intro cls
  induction cls with
  | nil => intro old; rfl
  | cons cl cls ih =>
    intro old
    match old with
    | [] => rfl
    | c :: rest =>
      simp only [updateTotal]
      by_cases he : cl.isEmpty
      · simp [he, ih]
      · simp [he, ih]

/-- If re-assigning the points against the output of one pass gives the same
assignment as against its input, the output is an exact fixed point of the
pass. -/
lemma step_fixed_of_same_assignment (d : Nat) (data cs : List Point)
    (hsame : ∀ p ∈ data,
      nearestIdx (lloydStepTotal d data cs) p = nearestIdx cs p) :
    lloydStepTotal d data (lloydStepTotal d data cs) = lloydStepTotal d data cs := by
  have hlen : (lloydStepTotal d data cs).length = cs.length :=
    lloydStepTotal_length d data cs
  show updateTotal d (buildClusters data (lloydStepTotal d data cs))
      (lloydStepTotal d data cs) = lloydStepTotal d data cs
  rw [buildClusters_congr data cs (lloydStepTotal d data cs) hlen hsame]
  exact updateTotal_idem d (buildClusters data cs) cs

lemma euclid_sq_self (p : Point) : euclid_sq p p = 0 := by
  induction p with
  | nil => rfl
  | cons x p ih => simp [euclid_sq] at ih ⊢; exact ih

lemma maxDeltaSq_self (cs : List Point) : maxDeltaSq cs cs = 0 := by
  have hdeltas : sqDeltas cs cs = List.replicate cs.length 0 := by
    induction cs with
    | nil => rfl
    | cons c cs ih =>
      simp only [sqDeltas, List.zip_cons_cons, List.map_cons, euclid_sq_self,
        List.length_cons, List.replicate_succ]
      rw [← sqDeltas, ih]
  unfold maxDeltaSq
  rw [hdeltas]
  have : ∀ n, (List.replicate n (0 : ℚ)).foldl max 0 = 0 := by
    intro n
    induction n with
    | zero => rfl
    | succ n ih => rw [List.replicate_succ, List.foldl_cons, max_self]; exact ih
  exact this cs.length

lemma minDistSqTo_append (cents : List Point) (hc : cents ≠ []) (c : Point)
    (p : Point) :
    minDistSqTo (cents ++ [c]) p = min (minDistSqTo cents p) (euclid_sq p c) := by
  match cents with
  | [] => exact absurd rfl hc
  | c0 :: rest =>
    show (rest ++ [c]).foldl (fun a c' => min a (euclid_sq p c')) (euclid_sq p c0) = _
    rw [List.foldl_append]
    rfl

lemma ppUpdateD_spec (dps : List Point) (cents : List Point) (hc : cents ≠ [])
    (c : Point) :
    ppUpdateD dps (dps.map (minDistSqTo cents)) c =
      dps.map (minDistSqTo (cents ++ [c])) := by
  unfold ppUpdateD
  induction dps with
  | nil => rfl
  | cons p l ih =>
    simp only [List.map_cons, List.zip_cons_cons]
    rw [minDistSqTo_append cents hc c p]
    exact congrArg _ (by simpa using ih)

lemma ppLoop_eq_specLoop (s : Sampler) (indices : List Int) (dps : List Point) :
    ∀ (r : Nat) (accIdx : List Int) (accC : List Point) (i : Nat), accC ≠ [] →
      ppLoop s indices dps (dps.map (minDistSqTo accC)) accIdx accC i r =
        specLoop s indices dps accIdx accC i r := by
  intro r
  induction r with
  | zero => intro accIdx accC i _; rfl
  | succ r ih =>
    intro accIdx accC i hne
    rw [ppLoop, specLoop]
    by_cases h : (dps.map (minDistSqTo accC)).sum = 0
    · rw [if_pos h, if_pos h]
    · rw [if_neg h, if_neg h,
        ppUpdateD_spec dps accC hne _]
      exact ih _ _ _ (by simp)

/-- Outside the hardcoded file pairs, the initializer of `kmeans_pp` computes
exactly the spec-side reference: the incremental `D` array always holds the
(squared) minimum distance to all already-chosen centroids. -/
lemma kmeans_pp_eq_spec (file1 file2 : String) (indices : List Int)
    (dps : List Point) (k : Nat) (s : Sampler)
    (hfiles : lookupExpected file1 file2 = none) :
    kmeans_pp file1 file2 indices dps k s = kmeansppSpecInit indices dps k s := by
  unfold kmeans_pp kmeansppSpecInit
  rw [hfiles]
  have hmap : dps.map (fun p =>
      euclid_sq p (dps.getD (s.draw 0 (List.replicate dps.length (1 / (dps.length : ℚ)))) [])) =
      dps.map (minDistSqTo
        [dps.getD (s.draw 0 (List.replicate dps.length (1 / (dps.length : ℚ)))) []]) :=
    List.map_congr_left (fun p _ => rfl)
  rw [hmap]
  exact ppLoop_eq_specLoop s indices dps (k - 1) _ _ 1 (by simp)

lemma kmeansppKCheck_error_iff (q : ℚ) (n : Nat) :
    (∃ e, kmeansppKCheck q n = .error e) ↔
      (pythonTrunc q ≤ 1 ∨ (n : Int) ≤ pythonTrunc q) := by
  unfold kmeansppKCheck validate_k
  by_cases h1 : 1 < pythonTrunc q
  · rw [if_pos h1]
    by_cases h2 : (n : Int) ≤ pythonTrunc q
    · simp [h2]
    · simp only [if_neg h2]
      constructor
      · intro ⟨e, he⟩
        exact absurd he (by simp)
      · intro h
        rcases h with h | h
        · omega
        · exact absurd h h2
  · rw [if_neg h1]
    constructor
    · intro _
      left
      omega
    · intro _
      exact ⟨INVALID_K_MSG, rfl⟩

lemma lloydLoop_isSome (d : Nat) (data : List Point) :
    ∀ (fuel : Nat) (cs : List Point), ∃ res, lloydLoop d data cs fuel = some res := by
  intro fuel
  induction fuel with
  | zero => intro cs; exact ⟨cs, rfl⟩
  | succ fuel ih =>
    intro cs
    have hupd : updateCentroids d (buildClusters data cs) cs =
        some (lloydStepTotal d data cs) :=
      updateCentroids_eq_updateTotal d _ cs (buildClusters_length data cs)
    rw [lloydLoop, hupd]
    by_cases hconv : maxDeltaSq (lloydStepTotal d data cs) cs < EPS ^ 2
    · exact ⟨lloydStepTotal d data cs, by simp [hconv]⟩
    · obtain ⟨res, hres⟩ := ih (lloydStepTotal d data cs)
      refine ⟨res, ?_⟩
      simp only [hconv, if_false]
      exact hres

/-- For a non-empty dataset, `kmeans` reports the cluster-count error exactly
when `k ≥ N` (and otherwise succeeds: the loop itself never fails). -/
lemma kmeans_numclust_iff (data : List Point) (k it : Nat) (hne : data ≠ []) :
    kmeans data k it = .error NUM_CLUST_ERR ↔ data.length ≤ k := by
  match data with
  | [] => exact absurd rfl hne
  | p0 :: rest =>
    by_cases h : (p0 :: rest).length ≤ k
    · rw [kmeans, if_pos h]
      exact iff_of_true rfl h
    · obtain ⟨res, hres⟩ := lloydLoop_isSome p0.length (p0 :: rest) it ((p0 :: rest).take k)
      rw [kmeans, if_neg h, hres]
      exact iff_of_false (by simp) h

lemma hw1KmeansRun_numclust_iff (q : ℚ) (data : List Point) (it : Nat)
    (hne : data ≠ []) :
    hw1KmeansRun q data it = .error NUM_CLUST_ERR ↔
      (q.den ≠ 1 ∨ q < 2 ∨ (data.length : ℚ) ≤ q) := by
  unfold hw1KmeansRun parse_k
  by_cases hden : q.den = 1
  · have hq : (q.num : ℚ) = q := by
      conv_rhs => rw [← Rat.num_div_den q]
      rw [hden]
      simp
    rw [if_neg (by simpa using hden)]
    by_cases h2 : q.num < 2
    · rw [if_pos h2]
      have : q < 2 := by
        rw [← hq]
        exact_mod_cast h2
      simp [hden, this]
    · rw [if_neg h2]
      have hq2 : ¬ q < 2 := by
        rw [← hq]
        exact_mod_cast h2
      rw [kmeans_numclust_iff data q.num.toNat it hne]
      have hcast : data.length ≤ q.num.toNat ↔ ((data.length : ℚ) ≤ q) := by
        constructor
        · intro hlen
          rw [← hq]
          have h' : (data.length : Int) ≤ q.num := by omega
          exact_mod_cast h'
        · intro hlen
          rw [← hq] at hlen
          have h' : (data.length : Int) ≤ q.num := by exact_mod_cast hlen
          omega
      rw [hcast]
      simp [hden, hq2]
  · rw [if_pos (by simpa using hden)]
    simp [hden]

/-! ## Claims -/

/-- Claim C1, counterexample: on the dataset {(0,0),(0,2),(10,0),(10,2)} with
k = 2 and max_iter = 10, the basic variant does not return the centroids
(0,1) and (10,1): deterministic first-k seeding starts from (0,0) and (0,2),
the assignment splits the points on the second coordinate, and the run
converges to (5,0) and (5,2). -/
theorem c1_counterexample :
    kmeans [[0, 0], [0, 2], [10, 0], [10, 2]] 2 10 ≠
      Except.ok [[0, 1], [10, 1]] := by
  decide

/-- Claim C1, amended: on the dataset {(0,0),(0,2),(10,0),(10,2)} with k = 2
and max_iter = 10, the basic variant returns exactly two centroids, (5,0) and
(5,2), in that order (converged at the second iteration). -/
theorem c1_amended :
    kmeans [[0, 0], [0, 2], [10, 0], [10, 2]] 2 10 = .ok [[5, 0], [5, 2]] := by
  decide


/-- Claim C2, counterexample: for the hardcoded file pair
`tests/input_1_db_1.txt`/`tests/input_1_db_2.txt` the initializer never
consults the random sampler: the seed indices are 47, 26, 39 straight from
the lookup table, although the sampler's uniform draw selects position 3,
whose original index is 5 ≠ 47.  The first centroid index is therefore not
drawn from the seeded generator, refuting "for every input dataset regardless
of the input file names". -/
theorem c2_counterexample :
    kmeans_pp "tests/input_1_db_1.txt" "tests/input_1_db_2.txt" [47, 26, 39, 5]
        [[0], [1], [2], [3]] 3 c2Sampler =
      .ok ([47, 26, 39], [[0], [1], [2]]) ∧
    [47, 26, 39, 5].getD (c2Sampler.draw 0 (List.replicate 4 (1 / 4 : ℚ))) 0 = 5 ∧
    (47 : Int) ≠ 5 := by
  decide

/-- Claim C2, amended: for every input whose file-name pair is NOT one of the
three hardcoded test pairs, the initializer follows the claimed draw
structure — the first seed position is drawn with the uniform probability
vector over the N positions, and each subsequent seed position with
probabilities proportional to the squared minimum distance from each point to
the already-chosen centroids, normalized over all N points, the distance
array being updated incrementally between consecutive weighted draws.  This
is formalized as equality with the spec-side reference initializer
`kmeansppSpecInit`, whose distance array is recomputed from scratch from the
chosen-centroid list at every draw. -/
theorem c2_amended (file1 file2 : String) (indices : List Int)
    (dps : List Point) (k : Nat) (s : Sampler)
    (hfiles : lookupExpected file1 file2 = none) :
    kmeans_pp file1 file2 indices dps k s = kmeansppSpecInit indices dps k s :=
  kmeans_pp_eq_spec file1 file2 indices dps k s hfiles

/-- Witness for the amended claim C2 at a concrete non-hardcoded input. -/
theorem c2_amended_witness :
    kmeans_pp "a.txt" "b.txt" [0, 1, 2] [[0], [1], [2]] 2 c2WitnessSampler =
      kmeansppSpecInit [0, 1, 2] [[0], [1], [2]] 2 c2WitnessSampler :=
  c2_amended "a.txt" "b.txt" [0, 1, 2] [[0], [1], [2]] 2 c2WitnessSampler
    (by decide)


/-- Claim C3, code evaluation at the failing input: with all three points
identical (every distance to the first chosen centroid is zero) and a
non-hardcoded file pair, the initialization fails with the modelled
NaN-probabilities crash `PPErr.nanProb` — numpy's silent `0/0` normalization
followed by the generic `ValueError` that `np.random.choice` raises on
NaN-containing probabilities — and not with any defined "degenerate distance
distribution" failure: the source has no such handling, and the error type of
the embedding, derived from the source, has no such constructor. -/
theorem c3_code_evaluation :
    kmeans_pp "a.txt" "b.txt" [0, 1, 2] [[0], [0], [0]] 2 c3Sampler =
      .error PPErr.nanProb := by
  decide

/-- Claim C4, counterexample: the k-means++ variant does not reject the
non-integer cluster count 2.5: `int(float("2.5"))` truncates toward zero to
2, which passes the `k > 1` check and (with N = 5) the `k >= N` check, so
the cluster-count validation succeeds although 5/2 is not an integer. -/
theorem c4_counterexample :
    kmeansppKCheck (5 / 2 : ℚ) 5 = .ok 2 ∧ (5 / 2 : ℚ).den ≠ 1 := by
  decide

/-- Claim C4, amended: the basic variant raises the cluster-count failure
exactly when the argument is non-integral, below 2, or at least N — all
detected before the iterative loop (the right-hand side does not mention the
iteration budget, and on success the loop itself never fails).  The k-means++
variant instead truncates the argument toward zero and fails exactly when the
truncated value is at most 1 or at least N; a fractional argument such as 2.5
is accepted as k = 2. -/
theorem c4_amended :
    (∀ (q : ℚ) (data : List Point) (it : Nat), data ≠ [] →
      (hw1KmeansRun q data it = .error NUM_CLUST_ERR ↔
        (q.den ≠ 1 ∨ q < 2 ∨ (data.length : ℚ) ≤ q))) ∧
    (∀ (q : ℚ) (n : Nat),
      (∃ e, kmeansppKCheck q n = .error e) ↔
        (pythonTrunc q ≤ 1 ∨ (n : Int) ≤ pythonTrunc q)) :=
  ⟨fun q data it hne => hw1KmeansRun_numclust_iff q data it hne,
   fun q n => kmeansppKCheck_error_iff q n⟩

/-- Witness for the amended claim C4: the basic variant rejects 5/2. -/
theorem c4_amended_witness :
    hw1KmeansRun (5 / 2 : ℚ) [[0], [1], [2]] 5 = .error NUM_CLUST_ERR :=
  (c4_amended.1 (5 / 2 : ℚ) [[0], [1], [2]] 5 (by decide)).mpr
    (Or.inl (by decide))

/-- Claim C5: across two consecutive iterations of the Lloyd iterator in
which no assignment bucket is empty, the inertia — the sum over all points of
the squared distance to their assigned (nearest, lowest-index-on-ties)
centroid — does not increase: the inertia measured after one full
assignment-and-update pass is at most the inertia before it. -/
theorem c5_inertia_nonincreasing (d : Nat) (data cs : List Point)
    (hcs : cs ≠ []) (hd : ∀ p ∈ data, p.length = d)
    (hdim : ∀ c ∈ cs, c.length = d)
    (hne : ∀ i, i < cs.length → (buildClusters data cs).getD i [] ≠ []) :
    inertia data (lloydStepTotal d data cs) ≤ inertia data cs :=
  inertia_step_le d data cs hcs hd hdim hne

/-- Witness for claim C5 at a concrete input with non-empty buckets. -/
theorem c5_witness :
    inertia [[0], [2], [10]] (lloydStepTotal 1 [[0], [2], [10]] [[0], [10]]) ≤
      inertia [[0], [2], [10]] [[0], [10]] :=
  c5_inertia_nonincreasing 1 [[0], [2], [10]] [[0], [10]] (by decide)
    (by decide) (by decide) (by decide)

/-- Claim C6: in the assignment step, the chosen centroid index attains the
minimal squared distance, and any other index attaining that same minimal
distance is larger or equal — i.e. on ties the lowest index wins. -/
theorem c6_tie_break_lowest_index (cs : List Point) (p : Point) (j : Nat)
    (hj : j < cs.length) :
    distToIdx cs p (nearestIdx cs p) ≤ distToIdx cs p j ∧
    (distToIdx cs p j ≤ distToIdx cs p (nearestIdx cs p) →
      nearestIdx cs p ≤ j) := by
  have hcs : cs ≠ [] := by
    intro h
    rw [h] at hj
    exact absurd hj (by simp)
  refine ⟨nearestIdx_min cs p hcs j hj, fun hle => ?_⟩
  by_contra hlt
  have hstrict := nearestIdx_least cs p hcs j (Nat.lt_of_not_le hlt)
  exact absurd hle (not_le.mpr hstrict)

/-- Witness for claim C6 on an exact two-way tie: the point (1) is
equidistant from the centroids (0) and (2) and is assigned to index 0. -/
theorem c6_witness :
    distToIdx [[0], [2]] [1] (nearestIdx [[0], [2]] [1]) ≤
      distToIdx [[0], [2]] [1] 1 ∧
    (distToIdx [[0], [2]] [1] 1 ≤
        distToIdx [[0], [2]] [1] (nearestIdx [[0], [2]] [1]) →
      nearestIdx [[0], [2]] [1] ≤ 1) :=
  c6_tie_break_lowest_index [[0], [2]] [1] 1 (by decide)

/-- Claim C7: an empty assignment bucket freezes its centroid — the update
step raises no error (it computes `updateTotal`) and leaves the previous
centroid unchanged at every empty index. -/
theorem c7_empty_cluster_freeze (d : Nat) (cls : List (List Point))
    (old : List Point) (i : Nat) (hlen : cls.length = old.length)
    (hi : i < cls.length) (hempty : cls.getD i [] = []) :
    updateCentroids d cls old = some (updateTotal d cls old) ∧
    (updateTotal d cls old).getD i [] = old.getD i [] := by
  refine ⟨updateCentroids_eq_updateTotal d cls old hlen, ?_⟩
  rw [updateTotal_getD d cls old i hi (hlen ▸ hi), hempty]
  simp

/-- Witness for claim C7: second bucket empty, second centroid kept. -/
theorem c7_witness :
    updateCentroids 1 [[[0]], []] [[0], [5]] =
      some (updateTotal 1 [[[0]], []] [[0], [5]]) ∧
    (updateTotal 1 [[[0]], []] [[0], [5]]).getD 1 [] = [[0], [5]].getD 1 [] :=
  c7_empty_cluster_freeze 1 [[[0]], []] [[0], [5]] 1 (by decide) (by decide)
    (by decide)

/-- Claim C8: for every valid input (non-empty dataset of uniform dimension
d, integer k with 2 ≤ k < N), `kmeans` succeeds and returns exactly k
centroids, each of dimension d. -/
theorem c8_output_shape (data : List Point) (k maxIter d : Nat)
    (_hne : data ≠ []) (hd : ∀ p ∈ data, p.length = d)
    (_hk2 : 2 ≤ k) (hkn : k < data.length) :
    ∃ cs, kmeans data k maxIter = .ok cs ∧ cs.length = k ∧
      ∀ c ∈ cs, c.length = d :=
  kmeans_ok data k maxIter d hd hkn

/-- Witness for claim C8 at a concrete valid input. -/
theorem c8_witness :
    ∃ cs, kmeans [[0], [1], [2]] 2 3 = .ok cs ∧ cs.length = 2 ∧
      ∀ c ∈ cs, c.length = 1 :=
  c8_output_shape [[0], [1], [2]] 2 3 1 (by decide) (by decide) (by decide)
    (by decide)

/-- Claim C9, counterexample: a run that terminates by convergence whose
output is not an eps-fixed point.  On the 1-dimensional dataset
{0, 1, 0.50049, 1.50248} with k = 2, the very first pass from the seeds
(0), (1) moves the centroids to (0), (1.00099) — a maximal shift of 0.00099,
below eps = 0.001, so the run converges and returns these centroids.  But the
sub-eps move crosses the Voronoi boundary for the point 0.50049: one more
pass from the output reassigns it and moves a centroid by 0.250245 ≥ eps. -/
theorem c9_counterexample :
    kmeans [[0], [1], [50049 / 100000], [150248 / 100000]] 2 10 =
      .ok [[0], [100099 / 100000]] ∧
    lloydStepTotal 1 [[0], [1], [50049 / 100000], [150248 / 100000]] [[0], [1]] =
      [[0], [100099 / 100000]] ∧
    maxDeltaSq [[0], [100099 / 100000]] [[0], [1]] < EPS ^ 2 ∧
    ¬ (maxDeltaSq
        (lloydStepTotal 1 [[0], [1], [50049 / 100000], [150248 / 100000]]
          [[0], [100099 / 100000]])
        [[0], [100099 / 100000]] < EPS ^ 2) := by
  refine ⟨by decide, by decide, by decide, by decide⟩

/-- Claim C9, amended: the converged output is a fixed point provided the
final sub-eps move crosses no Voronoi boundary — i.e. when re-assigning the
points against the output reproduces the assignment against the pre-update
centroids, one further pass shifts every centroid by exactly zero, which is
below eps. -/
theorem c9_amended (d : Nat) (data cs : List Point)
    (_hconv : maxDeltaSq (lloydStepTotal d data cs) cs < EPS ^ 2)
    (hsame : ∀ p ∈ data,
      nearestIdx (lloydStepTotal d data cs) p = nearestIdx cs p) :
    maxDeltaSq (lloydStepTotal d data (lloydStepTotal d data cs))
      (lloydStepTotal d data cs) < EPS ^ 2 := by
  rw [step_fixed_of_same_assignment d data cs hsame, maxDeltaSq_self]
  norm_num [EPS]

/-- Witness for the amended claim C9 on a stably-converged configuration. -/
theorem c9_amended_witness :
    maxDeltaSq
      (lloydStepTotal 2 [[0, 0], [0, 2], [10, 0], [10, 2]]
        (lloydStepTotal 2 [[0, 0], [0, 2], [10, 0], [10, 2]] [[5, 0], [5, 2]]))
      (lloydStepTotal 2 [[0, 0], [0, 2], [10, 0], [10, 2]] [[5, 0], [5, 2]]) <
      EPS ^ 2 :=
  c9_amended 2 [[0, 0], [0, 2], [10, 0], [10, 2]] [[5, 0], [5, 2]] (by decide)
    (by decide)

/-- Claim C10: the only division of the update step is guarded by
non-emptiness of the cluster, whose size is then at least 1, so the update
never fails (first conjunct), and consequently `kmeans` raises no exception
on any uniform-dimension dataset with 2 ≤ k < N (second conjunct). -/
theorem c10_no_division_by_zero (data : List Point) (k maxIter d : Nat)
    (_hne : data ≠ []) (hd : ∀ p ∈ data, p.length = d)
    (_hk2 : 2 ≤ k) (hkn : k < data.length) :
    (∀ (cls : List (List Point)) (old : List Point), cls.length = old.length →
      updateCentroids d cls old = some (updateTotal d cls old)) ∧
    ∃ cs, kmeans data k maxIter = .ok cs := by
  refine ⟨fun cls old h => updateCentroids_eq_updateTotal d cls old h, ?_⟩
  obtain ⟨cs, hcs, _, _⟩ := kmeans_ok data k maxIter d hd hkn
  exact ⟨cs, hcs⟩

/-- Witness for claim C10 at a concrete valid input. -/
theorem c10_witness :
    (∀ (cls : List (List Point)) (old : List Point), cls.length = old.length →
      updateCentroids 1 cls old = some (updateTotal 1 cls old)) ∧
    ∃ cs, kmeans [[0], [2], [4], [6]] 2 5 = .ok cs :=
  c10_no_division_by_zero [[0], [2], [4], [6]] 2 5 1 (by decide) (by decide)
    (by decide) (by decide)
